import Mathlib

/-!
# Verification of the knackBillMatch fuzzy matching engine

Shallow embedding of the check/invoice matching core of the repository:

* `scripts/process_payments_llama.py`: `normalize_name`, `name_similarity`,
  `normalize_amount`, `get_date_score`, `is_match`,
  `match_checks_with_invoices`, `analyze_check_with_consensus`.
* `scripts/process_payments.py`: `reanalyze_check` and the re-analysis scan
  inside `match_checks_with_invoices`.

Modelling conventions:

* Python floats are modelled as exact rationals (`ℚ`); the literals
  `0.4, 0.3, 0.2, 0.1, 0.9, 0.8, 0.5` are the exact fractions they denote.
* Python character classes (`\s`, `\d`, `\w`, `str.lower`) are modelled on
  the ASCII range; the repository only feeds ASCII names/amounts/dates.
* Python dictionaries with a fixed key set are modelled as structures; a key
  that may be absent is an `Option` field (`none` = missing key, so that a
  lookup raising `KeyError` is visible).  Raised exceptions are modelled with
  `Option`/`Except`; a `try/except` handler maps the error to the value the
  handler returns.
-/

attribute [local semireducible] Rat.add Rat.mul Rat.inv Rat.sub Rat.ofScientific

namespace KnackBillMatch

/-! ## ASCII models of the Python character classes -/

/-- ASCII model of the regex class `\s` (also of `str.split()` whitespace):
space, tab, newline, carriage return, vertical tab, form feed. -/
def pyIsSpace (c : Char) : Bool :=
  c.toNat = 32 || c.toNat = 9 || c.toNat = 10 || c.toNat = 13 || c.toNat = 11 || c.toNat = 12

/-- ASCII model of the regex class `\d`. -/
def pyIsDigit (c : Char) : Bool :=
  48 ≤ c.toNat && c.toNat ≤ 57

/-- ASCII model of the regex class `\w` (letters, digits, underscore). -/
def pyIsWord (c : Char) : Bool :=
  (65 ≤ c.toNat && c.toNat ≤ 90) || (97 ≤ c.toNat && c.toNat ≤ 122) ||
    (48 ≤ c.toNat && c.toNat ≤ 57) || c.toNat = 95

/-- ASCII model of `str.lower` on a single character. -/
def pyToLower (c : Char) : Char :=
  if h : 65 ≤ c.toNat ∧ c.toNat ≤ 90 then
    Char.ofNatAux (c.toNat + 32) (Or.inl (by omega))
  else c

/-- `str.lower` over a whole string (as a character list). -/
def lowerL (s : List Char) : List Char :=
  s.map pyToLower

/-! ## `normalize_name` (process_payments_llama.py lines 157-173)

```
name = re.sub(r'\s+\d+$', '', name)
name = name.lower()
name = re.sub(r'[^\w\s]', '', name)
words = name.split(); words.sort(); return ' '.join(words)
```
-/

/-- `re.sub(r'\s+\d+$', '', name)`: drop a maximal trailing digit run when it
is preceded by at least one whitespace character (dropping that whitespace
run as well); otherwise leave the string unchanged. -/
def stripTrailingNumber (s : List Char) : List Char :=
  let r := s.reverse
  let ds := r.takeWhile pyIsDigit
  let r2 := r.drop ds.length
  let sp := r2.takeWhile pyIsSpace
  if ds.isEmpty || sp.isEmpty then s else (r2.drop sp.length).reverse

/-- `re.sub(r'[^\w\s]', '', name)`: keep only word and whitespace characters. -/
def stripPunct (s : List Char) : List Char :=
  s.filter (fun c => pyIsWord c || pyIsSpace c)

/-- Helper for `pyWords`: accumulate the current word (reversed). -/
def wordsAux : List Char → List Char → List (List Char)
  | [], acc => if acc.isEmpty then [] else [acc.reverse]
  | c :: cs, acc =>
    if pyIsSpace c then
      if acc.isEmpty then wordsAux cs [] else acc.reverse :: wordsAux cs []
    else wordsAux cs (c :: acc)

/-- `str.split()`: split on whitespace runs, discarding empty pieces. -/
def pyWords (s : List Char) : List (List Char) :=
  wordsAux s []

/-- `' '.join(ws)` at the character-list level. -/
def joinWords : List (List Char) → List Char
  | [] => []
  | [w] => w
  | w :: ws => w ++ ' ' :: joinWords ws

/-- `words.sort()`: Python sorts strings by code-point lexicographic order,
which is the `≤` of the `LinearOrder` on `List Char`. -/
def sortWords (ws : List (List Char)) : List (List Char) :=
  List.insertionSort (· ≤ ·) ws

/-- `normalize_name` on character lists. -/
def normalizeNameL (s : List Char) : List Char :=
  if s.isEmpty then []
  else joinWords (sortWords (pyWords (stripPunct (lowerL (stripTrailingNumber s)))))

/-- `normalize_name(name)` (process_payments_llama.py lines 157-173). -/
def normalize_name (s : String) : String :=
  ⟨normalizeNameL s.data⟩

/-! ## `name_similarity` (process_payments_llama.py lines 175-201) -/

/-- `name_similarity(name1, name2)`: Jaccard overlap of the word sets of the
normalized names.  The `try/except` in the source can only be reached by the
operations modelled here, none of which raises. -/
def name_similarity (name1 name2 : String) : ℚ :=
  if name1 = "" || name2 = "" then 0
  else
    let n1 := normalize_name name1
    let n2 := normalize_name name2
    let words1 : Finset (List Char) := (pyWords n1.data).toFinset
    let words2 : Finset (List Char) := (pyWords n2.data).toFinset
    let common_words := words1 ∩ words2
    let total_words := words1 ∪ words2
    if total_words = ∅ then 0
    else (common_words.card : ℚ) / (total_words.card : ℚ)

/-! ## `normalize_amount` (process_payments_llama.py lines 203-211) -/

/-- `s.replace('$', '').replace(',', '')`. -/
def cleanAmount (s : List Char) : List Char :=
  s.filter (fun c => !(c = '$' || c = ','))

/-- Numeric value of a digit list (most significant first). -/
def digitsVal (ds : List Char) : ℕ :=
  ds.foldl (fun a c => 10 * a + (c.toNat - 48)) 0

/-- Grammar core of Python `float(str)`: optional sign, then either
`digits`, `digits.digits*`, or `.digits+`.  (The model covers the decimal
forms the repository feeds it; exponent, `inf`/`nan` and underscore forms
are treated as parse failures.) -/
def pyFloatCore (s : List Char) : Option ℚ :=
  let signed : ℚ × List Char :=
    match s with
    | '-' :: t => (-1, t)
    | '+' :: t => (1, t)
    | t => (1, t)
  let sign := signed.1
  let t := signed.2
  let ip := t.takeWhile pyIsDigit
  let rest := t.drop ip.length
  match rest with
  | [] => if ip.isEmpty then none else some (sign * (digitsVal ip : ℚ))
  | '.' :: fp =>
    if fp.all pyIsDigit && !(ip.isEmpty && fp.isEmpty) then
      some (sign * ((digitsVal ip : ℚ) + (digitsVal fp : ℚ) / (10 ^ fp.length : ℚ)))
    else none
  | _ => none

/-- Python `float(str)`: the argument may carry surrounding whitespace. -/
def pyFloat? (s : List Char) : Option ℚ :=
  pyFloatCore (((s.dropWhile pyIsSpace).reverse.dropWhile pyIsSpace).reverse)

/-- The successful-parse path of `normalize_amount`; `none` is the
`ValueError` path (a non-string argument takes the `AttributeError` path,
which behaves identically). -/
def normalizeAmount? (s : String) : Option ℚ :=
  pyFloat? (cleanAmount s.data)

/-- `normalize_amount(amount_str)`: the `except` handler returns `0.0`. -/
def normalize_amount (s : String) : ℚ :=
  (normalizeAmount? s).getD 0

/-! ## `get_date_score` (process_payments_llama.py lines 213-243) -/

/-- A date as produced by `datetime.strptime(s, '%m/%d/%Y')`. -/
structure PyDate where
  year : ℕ
  month : ℕ
  day : ℕ
deriving DecidableEq

/-- Gregorian leap year. -/
def isLeapYear (y : ℕ) : Bool :=
  (y % 4 = 0 && !(y % 100 = 0)) || y % 400 = 0

/-- Days in a month of the Gregorian calendar. -/
def daysInMonth (y m : ℕ) : ℕ :=
  if m = 2 then (if isLeapYear y then 29 else 28)
  else if m = 4 ∨ m = 6 ∨ m = 9 ∨ m = 11 then 30
  else 31

/-- Split a character list at every `'/'`. -/
def splitSlashAux : List Char → List Char → List (List Char)
  | [], acc => [acc.reverse]
  | c :: cs, acc =>
    if c = '/' then acc.reverse :: splitSlashAux cs []
    else splitSlashAux cs (c :: acc)

/-- Split a character list at every `'/'` (top level). -/
def splitSlash (s : List Char) : List (List Char) :=
  splitSlashAux s []

/-- All-digit check plus value. -/
def natOfDigits? (ds : List Char) : Option ℕ :=
  if !ds.isEmpty && ds.all pyIsDigit then some (digitsVal ds) else none

/-- `datetime.strptime(s, '%m/%d/%Y')`: month and day are 1-2 digit fields,
the year field is exactly 4 digits; `datetime` then validates the ranges
(month 1-12, day within the month, year at least 1).  `none` is the
`ValueError` path. -/
def strptimeMDY (s : String) : Option PyDate :=
  match splitSlash s.data with
  | [ms, ds, ys] =>
    match natOfDigits? ms, natOfDigits? ds, natOfDigits? ys with
    | some m, some d, some y =>
      if ms.length ≤ 2 ∧ ds.length ≤ 2 ∧ ys.length = 4 ∧
          1 ≤ m ∧ m ≤ 12 ∧ 1 ≤ d ∧ d ≤ daysInMonth y m ∧ 1 ≤ y
      then some ⟨y, m, d⟩ else none
    | _, _, _ => none
  | _ => none

/-- Days in the months strictly before month `m` of year `y`. -/
def daysBeforeMonth (y m : ℕ) : ℕ :=
  ((List.range (m - 1)).map (fun i => daysInMonth y (i + 1))).sum

/-- `datetime.date.toordinal`: day count with 01/01/0001 as day 1; the
difference of two ordinals is the day difference `datetime` subtraction
produces. -/
def toOrdinal (dt : PyDate) : ℕ :=
  365 * (dt.year - 1) + (dt.year - 1) / 4 - (dt.year - 1) / 100 + (dt.year - 1) / 400
    + daysBeforeMonth dt.year dt.month + dt.day

/-- `get_date_score(date1_str, date2_str)` (lines 213-243). -/
def get_date_score (date1_str date2_str : String) : ℚ :=
  if date1_str = "" || date2_str = "" then 0
  else
    match strptimeMDY date1_str, strptimeMDY date2_str with
    | some date1, some date2 =>
      let days_diff : ℤ := |(toOrdinal date2 : ℤ) - (toOrdinal date1 : ℤ)|
      if days_diff = 0 then 1
      else if days_diff ≤ 7 then 9/10
      else if days_diff ≤ 30 then 4/5
      else if days_diff ≤ 90 then 1/2
      else 0
    | _, _ => 0

/-! ## `is_match` (process_payments_llama.py lines 245-286) -/

/-- The check dictionary as consumed by `is_match`: the fields it accesses.
`none` models a missing key (`check[...]` raising `KeyError`). -/
structure CheckRec where
  amount : Option String
  date : Option String
  fromName : Option String
  payee : Option String
deriving DecidableEq

/-- The (formatted) invoice dictionary as consumed by `is_match` and
`match_checks_with_invoices`. -/
structure InvoiceRec where
  invoice_number : String
  amount : Option String
  date : Option String
  payee : Option String
  resident_name : Option String
deriving DecidableEq

/-- Lines 253-254: the amount component.  `none` models the
`ZeroDivisionError` of `amount_diff / max(...)`, which arises exactly when
`max check_amount invoice_amount = 0` while the difference is nonzero. -/
def amountScore (check_amount invoice_amount : ℚ) : Option ℚ :=
  if |check_amount - invoice_amount| = 0 then some 1
  else if max check_amount invoice_amount = 0 then none
  else some (max 0 (1 - |check_amount - invoice_amount| / max check_amount invoice_amount))

/-- `is_match(check, invoice)`: weighted composite score.  Any exception
(`KeyError` on a missing field, `ZeroDivisionError` in the amount component)
is caught by the enclosing `except`, which returns `0.0`. -/
def is_match (check : CheckRec) (invoice : InvoiceRec) : ℚ :=
  match check.amount, invoice.amount, check.date, invoice.date,
      check.fromName, invoice.resident_name, check.payee, invoice.payee with
  | some ca, some ia, some cd, some idt, some cf, some ir, some cp, some ip =>
    let check_amount := normalize_amount ca
    let invoice_amount := normalize_amount ia
    match amountScore check_amount invoice_amount with
    | none => 0
    | some amount_score =>
      let date_score := get_date_score cd idt
      let from_name := normalize_name cf
      let resident_name := normalize_name ir
      let name_score := name_similarity from_name resident_name
      let check_payee := normalize_name cp
      let invoice_payee := normalize_name ip
      let payee_score := name_similarity check_payee invoice_payee
      amount_score * (2/5) + date_score * (1/5) + name_score * (3/10) + payee_score * (1/10)
  | _, _, _, _, _, _, _, _ => 0

/-! ## `match_checks_with_invoices` (process_payments_llama.py lines 288-364)

The Knack-specific reformatting loop (lines 294-330) turns raw billing rows
into the `InvoiceRec` shape above; the matching phase (lines 332-364) is
embedded here over already-formatted invoices. -/

/-- One scored candidate pairing (`{'check': .., 'invoice': .., 'confidence': ..}`). -/
structure Cand where
  check : CheckRec
  invoice : InvoiceRec
  confidence : ℚ
deriving DecidableEq

/-- Descending-confidence comparison used by
`scored_matches.sort(key=lambda x: x['confidence'], reverse=True)`. -/
def candGe (a b : Cand) : Prop :=
  b.confidence ≤ a.confidence

instance : DecidableRel candGe :=
  fun a b => inferInstanceAs (Decidable (b.confidence ≤ a.confidence))

instance : IsTotal Cand candGe :=
  ⟨fun a b => le_total b.confidence a.confidence⟩

instance : IsTrans Cand candGe :=
  ⟨fun _ _ _ hab hbc => le_trans hbc hab⟩

/-- The candidates a single check collects (threshold `score > 0.3`). -/
def scoredMatchesFor (check : CheckRec) (invoices : List InvoiceRec) : List Cand :=
  invoices.filterMap (fun invoice =>
    if 3/10 < is_match check invoice
    then some ⟨check, invoice, is_match check invoice⟩ else none)

/-- Python stable sort, descending by confidence. -/
def sortByConfidenceDesc (l : List Cand) : List Cand :=
  List.insertionSort candGe l

/-- The matching phase of `match_checks_with_invoices`: returns
`(matches, unmatched_checks, unmatched_invoices)`. -/
def match_checks_with_invoices (checks : List CheckRec) (invoices : List InvoiceRec) :
    List (List Cand) × List CheckRec × List InvoiceRec :=
  let matchLists := checks.filterMap (fun check =>
    let scored_matches := scoredMatchesFor check invoices
    if scored_matches.isEmpty then none else some (sortByConfidenceDesc scored_matches))
  let unmatched_checks := checks.filter (fun check => (scoredMatchesFor check invoices).isEmpty)
  let matched_invoices :=
    (checks.map (fun check => scoredMatchesFor check invoices)).flatten.map
      (fun m => m.invoice.invoice_number)
  let unmatched_invoices :=
    invoices.filter (fun inv => !matched_invoices.contains inv.invoice_number)
  (matchLists, unmatched_checks, unmatched_invoices)

/-! ## `analyze_check_with_consensus` (process_payments_llama.py lines 105-155) -/

/-- One successful extraction-service result, restricted to the eight fields
the consensus step reads; a missing/`None`/empty value is `""` (all three are
falsy in the source and behave identically). -/
structure ExtractResult where
  check_number : String
  amount : String
  date : String
  payee : String
  fromName : String
  from_address : String
  memo : String
  bank_name : String
deriving DecidableEq

/-- Field names of `required_fields` (line 139). -/
inductive Fld
  | check_number | amount | date | payee | fromName | from_address | memo | bank_name
deriving DecidableEq

/-- Field projection (`result.get(field)`). -/
def getFld (r : ExtractResult) : Fld → String
  | .check_number => r.check_number
  | .amount => r.amount
  | .date => r.date
  | .payee => r.payee
  | .fromName => r.fromName
  | .from_address => r.from_address
  | .memo => r.memo
  | .bank_name => r.bank_name

/-- The five fields required for a consensus to be returned (line 150). -/
def coreFields : List Fld :=
  [.check_number, .amount, .date, .payee, .fromName]

/-- The consensus dictionary: a key is present (`some`) exactly when the
vote produced a value for the field. -/
structure ConsensusDict where
  check_number : Option String
  amount : Option String
  date : Option String
  payee : Option String
  fromName : Option String
  from_address : Option String
  memo : Option String
  bank_name : Option String
deriving DecidableEq

/-- Key lookup in a consensus dictionary. -/
def getC (c : ConsensusDict) : Fld → Option String
  | .check_number => c.check_number
  | .amount => c.amount
  | .date => c.date
  | .payee => c.payee
  | .fromName => c.fromName
  | .from_address => c.from_address
  | .memo => c.memo
  | .bank_name => c.bank_name

/-- The dictionary of a full extraction result (the identical-results path
returns `results[0]` itself, all eight keys present). -/
def toDict (r : ExtractResult) : ConsensusDict :=
  ⟨some r.check_number, some r.amount, some r.date, some r.payee,
    some r.fromName, some r.from_address, some r.memo, some r.bank_name⟩

/-- `[result.get(field) for result in results if result.get(field)]`. -/
def fieldValues (results : List ExtractResult) (f : Fld) : List String :=
  (results.map (fun r => getFld r f)).filter (fun v => !(v = ""))

/-- Number of occurrences of `v` in `l`. -/
def countV (l : List String) (v : String) : ℕ :=
  (l.filter (fun u => u = v)).length

/-- Helper for `chooseMax`: keep the earlier candidate `k` unless the later
best `b` has a strictly greater count. -/
def chooseBetter (l : List String) (k : String) : Option String → Option String
  | none => some k
  | some b => if countV l k < countV l b then some b else some k

/-- Embeds `Counter(values).most_common(1)`: walk the candidate keys in
insertion order, replacing the current best only on a strictly greater
count, so the first-seen value wins ties.  (Walking `l` itself instead of
its deduplication is equivalent: duplicates have equal counts.) -/
def chooseMax (l : List String) : List String → Option String
  | [] => none
  | k :: ks => chooseBetter l k (chooseMax l ks)

/-- `Counter(values).most_common(1)[0][0]` (with `none` for empty `values`). -/
def mostCommon (l : List String) : Option String :=
  chooseMax l l

/-- The per-field majority vote (lines 141-147). -/
def voteField (results : List ExtractResult) (f : Fld) : Option String :=
  mostCommon (fieldValues results f)

/-- The consensus dictionary built by the voting loop. -/
def voteConsensus (results : List ExtractResult) : ConsensusDict :=
  ⟨voteField results .check_number, voteField results .amount,
    voteField results .date, voteField results .payee,
    voteField results .fromName, voteField results .from_address,
    voteField results .memo, voteField results .bank_name⟩

/-- `analyze_check_with_consensus` (default `num_attempts = 2`), as a
function of the stream of extraction-service outcomes: entry `i` of
`attempts` is what the `i`-th call to `analyze_check_image` returns (`none`
for a failed call).  The function makes two calls, and two further calls
only when the collected results are not all identical. -/
def analyze_check_with_consensus (attempts : List (Option ExtractResult)) :
    Option ConsensusDict :=
  let firstResults := (attempts.take 2).filterMap id
  match firstResults with
  | [] => none
  | r0 :: rest =>
    if rest.all (fun r => r = r0) then some (toDict r0)
    else
      let results := (r0 :: rest) ++ ((attempts.drop 2).take 2).filterMap id
      let consensus := voteConsensus results
      if coreFields.all (fun f => (getC consensus f).isSome)
      then some consensus else none

/-! ## Re-analysis pass (process_payments.py lines 139-171 and 227-268) -/

/-- One entry of `check_data` as the re-analysis scan reads it:
`check_id` is the PDF stem, `amount` the flat numeric amount, and
`amountConfidence` the value of the `'Amount Confidence'` key when present. -/
structure OrigCheck where
  check_id : String
  amount : ℚ
  amountConfidence : Option String
deriving DecidableEq

/-- One entry of `filtered_checks` (lines 182-189). -/
structure FilteredCheck where
  check_id : String
  amount : ℚ
  amount_confidence : String
deriving DecidableEq

/-- Lines 182-189: `filtered_check` construction. -/
def buildFiltered (c : OrigCheck) : FilteredCheck :=
  ⟨c.check_id, c.amount, c.amountConfidence.getD "UNKNOWN"⟩

/-- One invoice inside a match entry (only its amount is read). -/
structure MatchInvoice where
  amount : ℚ
deriving DecidableEq

/-- One entry of the Nova match response `matches_data`. -/
structure MatchEntry where
  check_id : String
  amount : ℚ
  matching_invoices : List MatchInvoice
deriving DecidableEq

/-- Outcome of one `nova_lite.analyze_check_image` re-analysis call:
a falsy response, a response whose handling raises (the `except` path of
`reanalyze_check`), or a parsed result with its `Amount.Numerical` value
and optional `'Amount Confidence'` entry. -/
inductive NovaReanalysis
  | noResponse
  | parseFail
  | parsed (numerical : ℚ) (conf : Option String)
deriving DecidableEq

/-- What `reanalyze_check` evaluates to: Python `None` (falsy), the freshly
parsed result, or the original check dictionary passed in. -/
inductive ReanalysisValue
  | pyNone
  | newRes (numerical : ℚ) (conf : Option String)
  | originalCheck
deriving DecidableEq

/-- `reanalyze_check(nova_lite, check_result)` (lines 139-171), as a function
of the service outcome for the check: returns the new result only when its
stated confidence is `HIGH`, otherwise the original record (the `except`
handler also returns the original; a falsy response falls through to an
implicit `None`). -/
def reanalyze_check (oracle : String → NovaReanalysis) (c : OrigCheck) : ReanalysisValue :=
  match oracle c.check_id with
  | .noResponse => .pyNone
  | .parseFail => .originalCheck
  | .parsed q conf => if conf = some "HIGH" then .newRes q conf else .originalCheck

/-- Mutable state of the scan loop in lines 227-268. -/
structure ScanState where
  filtered : List FilteredCheck
  matchesData : List MatchEntry
  reanalyzedLog : List String
deriving DecidableEq

/-- Lines 243-247: update `filtered_checks` in place with the re-read amount
and its stated confidence. -/
def updateFiltered (filtered : List FilteredCheck) (cid : String) (q : ℚ)
    (conf : Option String) : List FilteredCheck :=
  filtered.map (fun fc =>
    if fc.check_id = cid then ⟨fc.check_id, q, conf.getD "UNKNOWN"⟩ else fc)

/-- The inner `for invoice in match.get('matching_invoices', [])` loop of
lines 229-268.  `oracle` gives the re-analysis service outcome per check id
and `rematch` the parsed Nova Pro response for a refreshed request.
`Except.error` models an uncaught exception escaping
`match_checks_with_invoices`. -/
def scanInvoices (oracle : String → NovaReanalysis)
    (rematch : List FilteredCheck → List MatchEntry)
    (origs needing : List OrigCheck) (entry : MatchEntry) :
    List MatchInvoice → ScanState → Except String ScanState
  | [], st => .ok st
  | inv :: invs, st =>
    let amount_diff := |entry.amount - inv.amount|
    if amount_diff ≤ 50 ∧ entry.check_id ∈ st.filtered.map (fun c => c.check_id) then
      match origs.find? (fun c => c.check_id = entry.check_id) with
      | none => .error "StopIteration"
      | some original_check =>
        if original_check ∈ needing then
          scanInvoices oracle rematch origs needing entry invs st
        else
          let st1 : ScanState :=
            ⟨st.filtered, st.matchesData, st.reanalyzedLog ++ [entry.check_id]⟩
          match reanalyze_check oracle original_check with
          | .pyNone => scanInvoices oracle rematch origs needing entry invs st1
          | .originalCheck => .error "KeyError"
          | .newRes q conf =>
            if 1/100 < |q - original_check.amount| then
              let f2 := updateFiltered st1.filtered entry.check_id q conf
              .ok ⟨f2, rematch f2, st1.reanalyzedLog⟩
            else
              scanInvoices oracle rematch origs needing entry invs st1
    else
      scanInvoices oracle rematch origs needing entry invs st

/-- The outer `for match in matches_data` loop: it iterates over the list
`matches_data` referred to at loop entry even if the variable is rebound by
a re-match inside the loop body. -/
def scanEntries (oracle : String → NovaReanalysis)
    (rematch : List FilteredCheck → List MatchEntry)
    (origs needing : List OrigCheck) :
    List MatchEntry → ScanState → Except String ScanState
  | [], st => .ok st
  | e :: es, st =>
    match scanInvoices oracle rematch origs needing e e.matching_invoices st with
    | .error msg => .error msg
    | .ok st1 => scanEntries oracle rematch origs needing es st1

/-- The re-analysis pass of `match_checks_with_invoices`
(process_payments.py lines 176-270), starting from the parsed initial
matches.  The returned state carries the final `filtered_checks`, the final
`matches_data`, and the log of check ids handed to `reanalyze_check`. -/
def reanalysisPass (oracle : String → NovaReanalysis)
    (rematch : List FilteredCheck → List MatchEntry)
    (check_data : List OrigCheck) (initialMatches : List MatchEntry) :
    Except String ScanState :=
  let filtered_checks := check_data.map buildFiltered
  let checks_needing_reanalysis :=
    check_data.filter (fun c => c.amountConfidence = some "LOW")
  scanEntries oracle rematch check_data checks_needing_reanalysis initialMatches
    ⟨filtered_checks, initialMatches, []⟩

/-! ## Specification-side definitions (written from the words of the spec,
to be compared with the source embeddings above) -/

/-- The step function the spec gives for the date score, as a function of
the absolute day difference. -/
def dateStepSpec (days_diff : ℤ) : ℚ :=
  if days_diff = 0 then 1
  else if days_diff ≤ 7 then 9/10
  else if days_diff ≤ 30 then 4/5
  else if days_diff ≤ 90 then 1/2
  else 0

/-- The vote the spec describes: the most frequent value, ties broken by
first-seen order; no value exactly when there is nothing to vote on. -/
def MajorityVote (l : List String) : Option String → Prop
  | none => l = []
  | some v => v ∈ l ∧ (∀ u ∈ l, countV l u ≤ countV l v) ∧
      (∀ u ∈ l, countV l u = countV l v → l.indexOf v ≤ l.indexOf u)

/-- `str.lower` on a whole string. -/
def lowerStr (s : String) : String :=
  ⟨lowerL s.data⟩

/-- What the spec asserts of the "list all candidates" mode, for one batch:
every returned list is a non-empty descending-confidence list of genuine
pairs over the floor; every pair over the floor appears (the invoice pool is
not pre-consumed); the unmatched checks are exactly those with no candidate
over the floor; an invoice is reported unmatched exactly when no check
claims it. -/
def ListAllCandidatesSpec (checks : List CheckRec) (invoices : List InvoiceRec) : Prop :=
  (∀ L ∈ (match_checks_with_invoices checks invoices).1,
      L ≠ [] ∧ List.Sorted candGe L ∧
      ∀ m ∈ L, 3/10 < m.confidence ∧ m.confidence = is_match m.check m.invoice ∧
        m.check ∈ checks ∧ m.invoice ∈ invoices) ∧
  (∀ c ∈ checks, ∀ i ∈ invoices, 3/10 < is_match c i →
      ∃ L ∈ (match_checks_with_invoices checks invoices).1,
        ∃ m ∈ L, m.check = c ∧ m.invoice = i) ∧
  (∀ c : CheckRec, c ∈ (match_checks_with_invoices checks invoices).2.1 ↔
      c ∈ checks ∧ ∀ i ∈ invoices, is_match c i ≤ 3/10) ∧
  (∀ i ∈ invoices, (i ∈ (match_checks_with_invoices checks invoices).2.2 ↔
      ∀ c ∈ checks, is_match c i ≤ 3/10))

/-! ## Concrete records used by individual claims -/

/-- A check whose amount matches `cexInvoiceA` exactly. -/
def cexCheck : CheckRec :=
  ⟨some "$100.00", some "01/01/2024", some "kurt", some "map"⟩

/-- First invoice with `invoice_number = "1"`. -/
def cexInvoiceA : InvoiceRec :=
  ⟨"1", some "$100.00", some "01/01/2024", some "map", some "kurt"⟩

/-- Second invoice with the same `invoice_number = "1"` but hopeless data. -/
def cexInvoiceB : InvoiceRec :=
  ⟨"1", some "$999,999.00", some "", some "", some ""⟩

/-- One concrete extraction result. -/
def extractA : ExtractResult :=
  ⟨"1001", "$5,490.00", "10/02/2024", "The Mapleton", "Kurt Elliott", "", "", ""⟩

/-- A second extraction result differing from `extractA` in the amount. -/
def extractB : ExtractResult :=
  ⟨"1001", "$5,940.00", "10/02/2024", "The Mapleton", "Kurt Elliott", "", "", ""⟩

/-- A check with no `'Amount Confidence'` key (not flagged `LOW`). -/
def origCheckC1 : OrigCheck :=
  ⟨"c1", 100, none⟩

/-- A match entry whose check has two candidate invoices within the $50
re-analysis tolerance. -/
def entryTwoNear : MatchEntry :=
  ⟨"c1", 100, [⟨90⟩, ⟨120⟩]⟩

/-- Re-analysis service outcome: confirms the original amount with `HIGH`
stated confidence. -/
def oracleSameHigh : String → NovaReanalysis :=
  fun _ => .parsed 100 (some "HIGH")

/-- Re-analysis service outcome: re-reads the amount with low stated
confidence, so `reanalyze_check` returns the original record. -/
def oracleLowConf : String → NovaReanalysis :=
  fun _ => .parsed 100 (some "LOW")

/-- A Nova Pro re-match oracle (never consulted on the failing inputs before
the divergence shows). -/
def rematchNone : List FilteredCheck → List MatchEntry :=
  fun _ => []

/-! # Theorems -/

/-! ## Helper lemmas: `normalize_amount` and `amountScore` -/

theorem normalize_amount_of_none {s : String} (h : normalizeAmount? s = none) :
    normalize_amount s = 0 := by
  unfold normalize_amount
  rw [h]
  rfl

theorem normalize_amount_of_some {s : String} {q : ℚ} (h : normalizeAmount? s = some q) :
    normalize_amount s = q := by
  unfold normalize_amount
  rw [h]
  rfl

theorem amountScore_symm (a b : ℚ) : amountScore a b = amountScore b a := by
  unfold amountScore
  rw [abs_sub_comm, max_comm]

theorem amountScore_self (a : ℚ) : amountScore a a = some 1 := by
  unfold amountScore
  simp

theorem amountScore_of_nonneg {a b : ℚ} (ha : 0 ≤ a) (hb : 0 ≤ b) :
    amountScore a b = some (if a = b then 1 else max 0 (1 - |a - b| / max a b)) := by
  by_cases hab : a = b
  · rw [hab, if_pos rfl]
    exact amountScore_self b
  · have h1 : ¬ |a - b| = 0 := abs_ne_zero.2 (sub_ne_zero.2 hab)
    have h2 : ¬ max a b = 0 := by
      intro h
      have haz : a = 0 := le_antisymm (h ▸ le_max_left a b) ha
      have hbz : b = 0 := le_antisymm (h ▸ le_max_right a b) hb
      exact hab (haz.trans hbz.symm)
    unfold amountScore
    rw [if_neg h1, if_neg h2, if_neg hab]

theorem amountScore_of_le {b x : ℚ} (hb : 0 ≤ b) (hbx : b ≤ x) :
    amountScore x b = some (if x = b then 1 else b / x) := by
  by_cases hxb : x = b
  · rw [hxb, if_pos rfl]
    exact amountScore_self b
  · have hbx' : b < x := lt_of_le_of_ne hbx (Ne.symm hxb)
    have hx : 0 < x := lt_of_le_of_lt hb hbx'
    have habs : |x - b| = x - b := abs_of_nonneg (sub_nonneg.2 hbx)
    have h1 : ¬ |x - b| = 0 := by
      rw [habs]
      exact sub_ne_zero.2 hxb
    have hmax : max x b = x := max_eq_left hbx
    unfold amountScore
    rw [if_neg h1, hmax, if_neg hx.ne', habs, if_neg hxb]
    congr 1
    have hdiv : (x - b) / x = 1 - b / x := by
      field_simp
    rw [hdiv]
    have h2 : 1 - (1 - b / x) = b / x := by ring
    rw [h2, max_eq_right (div_nonneg hb hx.le)]

theorem amountScore_antitone_right {b a1 a2 : ℚ} (hb : 0 ≤ b) (h1 : b ≤ a1) (h2 : a1 ≤ a2) :
    (amountScore a2 b).getD 0 ≤ (amountScore a1 b).getD 0 := by
  rw [amountScore_of_le hb (h1.trans h2), amountScore_of_le hb h1]
  simp only [Option.getD_some]
  by_cases e2 : a2 = b
  · have e1 : a1 = b := le_antisymm (e2 ▸ h2) h1
    rw [if_pos e2, if_pos e1]
  · rw [if_neg e2]
    have hb2 : b < a2 := lt_of_le_of_ne (h1.trans h2) (Ne.symm e2)
    have ha2 : 0 < a2 := lt_of_le_of_lt hb hb2
    by_cases e1 : a1 = b
    · rw [if_pos e1]
      exact (div_le_one ha2).2 (h1.trans h2)
    · rw [if_neg e1]
      have hb1 : b < a1 := lt_of_le_of_ne h1 (Ne.symm e1)
      have ha1 : 0 < a1 := lt_of_le_of_lt hb hb1
      exact div_le_div_of_nonneg_left hb ha1 h2

theorem amountScore_monotone_left {b a1 a2 : ℚ} (h0 : 0 ≤ a1) (h12 : a1 ≤ a2) (h2b : a2 ≤ b) :
    (amountScore a1 b).getD 0 ≤ (amountScore a2 b).getD 0 := by
  rw [amountScore_symm a1 b, amountScore_symm a2 b,
    amountScore_of_le h0 (h12.trans h2b), amountScore_of_le (h0.trans h12) h2b]
  simp only [Option.getD_some]
  by_cases e2 : b = a2
  · rw [if_pos e2]
    by_cases e1 : b = a1
    · rw [if_pos e1]
    · rw [if_neg e1]
      have h1b : a1 < b := lt_of_le_of_ne (h12.trans h2b) (fun h => e1 h.symm)
      have hbpos : 0 < b := lt_of_le_of_lt h0 h1b
      exact (div_le_one hbpos).2 (h12.trans h2b)
  · rw [if_neg e2]
    have h2b' : a2 < b := lt_of_le_of_ne h2b (fun h => e2 h.symm)
    have hbpos : 0 < b := lt_of_le_of_lt (h0.trans h12) h2b'
    have e1 : ¬ b = a1 := by
      intro h
      exact e2 (le_antisymm (by rw [h]; exact h12) h2b)
    rw [if_neg e1]
    exact (div_le_div_iff_of_pos_right hbpos).2 h12

theorem amountScore_nonneg {a b s : ℚ} (h : amountScore a b = some s) : 0 ≤ s := by
  unfold amountScore at h
  by_cases h1 : |a - b| = 0
  · rw [if_pos h1] at h
    cases h
    norm_num
  by_cases h2 : max a b = 0
  · rw [if_neg h1, if_pos h2] at h
    cases h
  · rw [if_neg h1, if_neg h2] at h
    cases h
    exact le_max_left 0 _

theorem amountScore_le_one {a b s : ℚ} (ha : 0 ≤ a) (_hb : 0 ≤ b)
    (h : amountScore a b = some s) : s ≤ 1 := by
  unfold amountScore at h
  by_cases h1 : |a - b| = 0
  · rw [if_pos h1] at h
    cases h
    norm_num
  by_cases h2 : max a b = 0
  · rw [if_neg h1, if_pos h2] at h
    cases h
  · rw [if_neg h1, if_neg h2] at h
    cases h
    have hm : 0 < max a b := lt_of_le_of_ne (ha.trans (le_max_left a b)) (Ne.symm h2)
    have hd : 0 ≤ |a - b| / max a b := div_nonneg (abs_nonneg _) hm.le
    exact max_le (by norm_num) (by linarith)

/-! ## C7: `normalize_amount` error handling -/

/-- C7 counterexample: on the unparsable input `"abc"` the normalization
fails and the returned amount is `0.0`; no confidence flag exists in this
pipeline to be set, so the parsing failure silently coerces the amount to
zero, contrary to the claim. -/
theorem C7_counterexample :
    normalizeAmount? "abc" = none ∧ normalize_amount "abc" = 0 := by
  constructor
  · decide
  · decide

/-- C7 (amended): `normalize_amount` never raises past its caller - the
parse failure is handled locally - but the failure returns the amount value
`0.0` (with only a log line); no `amount_confidence` flag is set. -/
theorem C7_normalize_amount_amended :
    (∀ s : String, normalizeAmount? s = none → normalize_amount s = 0) ∧
    (∀ (s : String) (q : ℚ), normalizeAmount? s = some q → normalize_amount s = q) :=
  ⟨fun _ h => normalize_amount_of_none h, fun _ _ h => normalize_amount_of_some h⟩

/-- Witness for C7 at concrete inputs. -/
theorem C7_witness :
    normalize_amount "xyz" = 0 ∧ normalize_amount "$1,234.56" = 123456/100 :=
  ⟨C7_normalize_amount_amended.1 "xyz" (by decide),
   C7_normalize_amount_amended.2 "$1,234.56" (123456/100) (by decide)⟩

/-! ## C5: the amount score -/

/-- C5 counterexample: the amount score is not a monotone function of the
absolute difference alone - here the difference grows from 5 to 6 while the
score grows from 1/2 to 5/8. -/
theorem C5_counterexample :
    |(10 : ℚ) - 5| < |(10 : ℚ) - 16| ∧
    (amountScore 10 5).getD 0 < (amountScore 10 16).getD 0 := by
  constructor
  · decide
  · decide

/-- C5 (amended): for non-negative amounts the score is `1` on equal
amounts and `max 0 (1 - |a-b| / max a b)` otherwise, and is symmetric; it
decreases as `|a - b|` grows while the other amount stays fixed on one side
(the second argument fixed below both, or fixed above both) - but not as a
function of `|a - b|` alone. -/
theorem C5_amount_score_amended :
    (∀ a b : ℚ, 0 ≤ a → 0 ≤ b →
        amountScore a b = some (if a = b then 1 else max 0 (1 - |a - b| / max a b))) ∧
    (∀ a : ℚ, amountScore a a = some 1) ∧
    (∀ a b : ℚ, amountScore a b = amountScore b a) ∧
    (∀ b a1 a2 : ℚ, 0 ≤ b → b ≤ a1 → a1 ≤ a2 →
        (amountScore a2 b).getD 0 ≤ (amountScore a1 b).getD 0) ∧
    (∀ b a1 a2 : ℚ, 0 ≤ a1 → a1 ≤ a2 → a2 ≤ b →
        (amountScore a1 b).getD 0 ≤ (amountScore a2 b).getD 0) :=
  ⟨fun _ _ ha hb => amountScore_of_nonneg ha hb,
   amountScore_self,
   amountScore_symm,
   fun _ _ _ hb h1 h2 => amountScore_antitone_right hb h1 h2,
   fun _ _ _ h0 h12 h2b => amountScore_monotone_left h0 h12 h2b⟩

/-- Witness for C5 at concrete inputs. -/
theorem C5_witness :
    amountScore 3 5 = some (if (3 : ℚ) = 5 then 1 else max 0 (1 - |(3 : ℚ) - 5| / max 3 5)) ∧
    (amountScore 7 3).getD 0 ≤ (amountScore 5 3).getD 0 :=
  ⟨C5_amount_score_amended.1 3 5 (by norm_num) (by norm_num),
   C5_amount_score_amended.2.2.2.1 3 5 7 (by norm_num) (by norm_num) (by norm_num)⟩

/-! ## C4: the date score -/

theorem strptimeMDY_empty : strptimeMDY "" = none := by
  decide

theorem get_date_score_of_some {s1 s2 : String} {d1 d2 : PyDate}
    (h1 : strptimeMDY s1 = some d1) (h2 : strptimeMDY s2 = some d2) :
    get_date_score s1 s2 = dateStepSpec |(toOrdinal d2 : ℤ) - (toOrdinal d1 : ℤ)| := by
  have e1 : ¬ s1 = "" := by
    intro e
    rw [e, strptimeMDY_empty] at h1
    cases h1
  have e2 : ¬ s2 = "" := by
    intro e
    rw [e, strptimeMDY_empty] at h2
    cases h2
  unfold get_date_score
  rw [if_neg (by simp [e1, e2]), h1, h2]
  rfl

theorem get_date_score_of_none {s1 s2 : String}
    (h : strptimeMDY s1 = none ∨ strptimeMDY s2 = none) :
    get_date_score s1 s2 = 0 := by
  by_cases e1 : s1 = ""
  · simp [get_date_score, e1]
  by_cases e2 : s2 = ""
  · simp [get_date_score, e1, e2]
  unfold get_date_score
  rw [if_neg (by simp [e1, e2])]
  rcases h with h | h
  · rw [h]
  · rcases hh : strptimeMDY s1 with _ | d1
    · rfl
    · rw [h]

theorem get_date_score_symm (s1 s2 : String) :
    get_date_score s1 s2 = get_date_score s2 s1 := by
  rcases h1 : strptimeMDY s1 with _ | d1
  · rw [get_date_score_of_none (Or.inl h1), get_date_score_of_none (Or.inr h1)]
  rcases h2 : strptimeMDY s2 with _ | d2
  · rw [get_date_score_of_none (Or.inr h2), get_date_score_of_none (Or.inl h2)]
  rw [get_date_score_of_some h1 h2, get_date_score_of_some h2 h1, abs_sub_comm]

/-- C4: between two parsed `MM/DD/YYYY` dates the score is the step function
of the absolute day difference; it is `1` on equal dates, symmetric, `0`
when either date fails to parse (instead of raising), and the 90-day
boundary is inclusive (exactly 90 days apart scores `0.5`, 91 days `0.0`,
witnessed on 01/01/2024 vs 03/31/2024 and 04/01/2024). -/
theorem C4_date_score :
    (∀ (s1 s2 : String) (d1 d2 : PyDate), strptimeMDY s1 = some d1 → strptimeMDY s2 = some d2 →
        get_date_score s1 s2 = dateStepSpec |(toOrdinal d2 : ℤ) - (toOrdinal d1 : ℤ)|) ∧
    (∀ (s : String) (d : PyDate), strptimeMDY s = some d → get_date_score s s = 1) ∧
    (∀ s1 s2 : String, get_date_score s1 s2 = get_date_score s2 s1) ∧
    (∀ s1 s2 : String, strptimeMDY s1 = none ∨ strptimeMDY s2 = none →
        get_date_score s1 s2 = 0) ∧
    get_date_score "01/01/2024" "03/31/2024" = 1/2 ∧
    get_date_score "01/01/2024" "04/01/2024" = 0 := by
  refine ⟨fun _ _ _ _ h1 h2 => get_date_score_of_some h1 h2, ?_,
    get_date_score_symm, fun _ _ h => get_date_score_of_none h, by decide, by decide⟩
  intro s d h
  rw [get_date_score_of_some h h, sub_self, abs_zero]
  rfl

/-- Witness for C4 at concrete parsed dates (one day apart scores 0.9). -/
theorem C4_witness :
    get_date_score "10/02/2024" "10/01/2024" =
      dateStepSpec |(toOrdinal ⟨2024, 10, 1⟩ : ℤ) - (toOrdinal ⟨2024, 10, 2⟩ : ℤ)| ∧
    get_date_score "10/02/2024" "10/02/2024" = 1 :=
  ⟨C4_date_score.1 "10/02/2024" "10/01/2024" ⟨2024, 10, 2⟩ ⟨2024, 10, 1⟩ (by decide) (by decide),
   C4_date_score.2.1 "10/02/2024" ⟨2024, 10, 2⟩ (by decide)⟩

/-! ## Helper lemmas: bounds of the component scores and the shape of
`is_match` -/

theorem get_date_score_bounds (d1 d2 : String) :
    0 ≤ get_date_score d1 d2 ∧ get_date_score d1 d2 ≤ 1 := by
  rcases h1 : strptimeMDY d1 with _ | a
  · rw [get_date_score_of_none (Or.inl h1)]
    norm_num
  rcases h2 : strptimeMDY d2 with _ | b
  · rw [get_date_score_of_none (Or.inr h2)]
    norm_num
  rw [get_date_score_of_some h1 h2]
  unfold dateStepSpec
  split_ifs <;> norm_num

theorem name_similarity_bounds (a b : String) :
    0 ≤ name_similarity a b ∧ name_similarity a b ≤ 1 := by
  unfold name_similarity
  split
  · norm_num
  dsimp only
  split
  · norm_num
  rename_i htot
  have hsub : ((pyWords (normalize_name a).data).toFinset ∩
      (pyWords (normalize_name b).data).toFinset) ⊆
      ((pyWords (normalize_name a).data).toFinset ∪
      (pyWords (normalize_name b).data).toFinset) :=
    Finset.inter_subset_union
  have hcard := Finset.card_le_card hsub
  have hpos : 0 < ((pyWords (normalize_name a).data).toFinset ∪
      (pyWords (normalize_name b).data).toFinset).card :=
    Finset.card_pos.2 (Finset.nonempty_iff_ne_empty.2 htot)
  constructor
  · positivity
  · rw [div_le_one (by exact_mod_cast hpos)]
    exact_mod_cast hcard

theorem is_match_eq (c : CheckRec) (i : InvoiceRec) (ca ia cd idt cf ir cp ip : String)
    (h1 : c.amount = some ca) (h2 : i.amount = some ia) (h3 : c.date = some cd)
    (h4 : i.date = some idt) (h5 : c.fromName = some cf) (h6 : i.resident_name = some ir)
    (h7 : c.payee = some cp) (h8 : i.payee = some ip) :
    is_match c i =
      match amountScore (normalize_amount ca) (normalize_amount ia) with
      | none => 0
      | some amount_score =>
          amount_score * (2/5) + get_date_score cd idt * (1/5) +
            name_similarity (normalize_name cf) (normalize_name ir) * (3/10) +
            name_similarity (normalize_name cp) (normalize_name ip) * (1/10) := by
  obtain ⟨a1, a2, a3, a4⟩ := c
  obtain ⟨n, b1, b2, b3, b4⟩ := i
  dsimp only at h1 h2 h3 h4 h5 h6 h7 h8
  subst h1 h2 h3 h4 h5 h6 h7 h8
  rfl

theorem is_match_eq_some (c : CheckRec) (i : InvoiceRec) (ca ia cd idt cf ir cp ip : String)
    {s : ℚ} (h1 : c.amount = some ca) (h2 : i.amount = some ia) (h3 : c.date = some cd)
    (h4 : i.date = some idt) (h5 : c.fromName = some cf) (h6 : i.resident_name = some ir)
    (h7 : c.payee = some cp) (h8 : i.payee = some ip)
    (h9 : amountScore (normalize_amount ca) (normalize_amount ia) = some s) :
    is_match c i =
      s * (2/5) + get_date_score cd idt * (1/5) +
        name_similarity (normalize_name cf) (normalize_name ir) * (3/10) +
        name_similarity (normalize_name cp) (normalize_name ip) * (1/10) := by
  rw [is_match_eq c i ca ia cd idt cf ir cp ip h1 h2 h3 h4 h5 h6 h7 h8, h9]

theorem is_match_eq_none (c : CheckRec) (i : InvoiceRec) (ca ia cd idt cf ir cp ip : String)
    (h1 : c.amount = some ca) (h2 : i.amount = some ia) (h3 : c.date = some cd)
    (h4 : i.date = some idt) (h5 : c.fromName = some cf) (h6 : i.resident_name = some ir)
    (h7 : c.payee = some cp) (h8 : i.payee = some ip)
    (h9 : amountScore (normalize_amount ca) (normalize_amount ia) = none) :
    is_match c i = 0 := by
  rw [is_match_eq c i ca ia cd idt cf ir cp ip h1 h2 h3 h4 h5 h6 h7 h8, h9]

theorem is_match_missing (c : CheckRec) (i : InvoiceRec)
    (h : c.amount = none ∨ i.amount = none ∨ c.date = none ∨ i.date = none ∨
      c.fromName = none ∨ i.resident_name = none ∨ c.payee = none ∨ i.payee = none) :
    is_match c i = 0 := by
  obtain ⟨a1, a2, a3, a4⟩ := c
  obtain ⟨n, b1, b2, b3, b4⟩ := i
  dsimp only at h
  cases a1 <;> cases b1 <;> cases a2 <;> cases b2 <;> cases a3 <;> cases b4 <;>
      cases a4 <;> cases b3 <;>
    first
      | rfl
      | simp_all

theorem is_match_bounds (c : CheckRec) (i : InvoiceRec)
    (hca : 0 ≤ normalize_amount (c.amount.getD ""))
    (hia : 0 ≤ normalize_amount (i.amount.getD "")) :
    0 ≤ is_match c i ∧ is_match c i ≤ 1 := by
  rcases hA : c.amount with _ | ca
  · rw [is_match_missing c i (Or.inl hA)]
    norm_num
  rcases hB : i.amount with _ | ia
  · rw [is_match_missing c i (Or.inr (Or.inl hB))]
    norm_num
  rcases hC : c.date with _ | cd
  · rw [is_match_missing c i (Or.inr (Or.inr (Or.inl hC)))]
    norm_num
  rcases hD : i.date with _ | idt
  · rw [is_match_missing c i (Or.inr (Or.inr (Or.inr (Or.inl hD))))]
    norm_num
  rcases hE : c.fromName with _ | cf
  · rw [is_match_missing c i (Or.inr (Or.inr (Or.inr (Or.inr (Or.inl hE)))))]
    norm_num
  rcases hF : i.resident_name with _ | ir
  · rw [is_match_missing c i (Or.inr (Or.inr (Or.inr (Or.inr (Or.inr (Or.inl hF))))))]
    norm_num
  rcases hG : c.payee with _ | cp
  · rw [is_match_missing c i (Or.inr (Or.inr (Or.inr (Or.inr (Or.inr (Or.inr (Or.inl hG)))))))]
    norm_num
  rcases hH : i.payee with _ | ip
  · rw [is_match_missing c i (Or.inr (Or.inr (Or.inr (Or.inr (Or.inr (Or.inr (Or.inr hH)))))))]
    norm_num
  rw [hA] at hca
  rw [hB] at hia
  simp only [Option.getD_some] at hca hia
  rcases hS : amountScore (normalize_amount ca) (normalize_amount ia) with _ | s
  · rw [is_match_eq_none c i ca ia cd idt cf ir cp ip hA hB hC hD hE hF hG hH hS]
    norm_num
  rw [is_match_eq_some c i ca ia cd idt cf ir cp ip hA hB hC hD hE hF hG hH hS]
  have hs0 : 0 ≤ s := amountScore_nonneg hS
  have hs1 : s ≤ 1 := amountScore_le_one hca hia hS
  have hd := get_date_score_bounds cd idt
  have hn := name_similarity_bounds (normalize_name cf) (normalize_name ir)
  have hp := name_similarity_bounds (normalize_name cp) (normalize_name ip)
  obtain ⟨hd0, hd1⟩ := hd
  obtain ⟨hn0, hn1⟩ := hn
  obtain ⟨hp0, hp1⟩ := hp
  constructor
  · positivity
  · nlinarith

/-! ## C1: the weighted composite confidence -/

/-- C1 counterexample: with negative parsed amounts the amount component is
`max 0 (1 - diff / max)` with a negative `max`, which exceeds 1, and the
composite confidence becomes 1.4 - outside `[0, 1]`. -/
theorem C1_counterexample :
    1 < is_match ⟨some "-5", some "01/01/2024", some "a", some "a"⟩
        ⟨"X", some "-10", some "01/01/2024", some "a", some "a"⟩ := by
  decide

/-- C1 (amended): whenever the eight accessed fields are present and the
amount component raises no `ZeroDivisionError`, the confidence equals the
weighted sum of the component scores with weights amount 0.4, date 0.2,
drawer/from-name 0.3, payee 0.1 (summing to 1); and provided both parsed
amounts are non-negative the confidence lies in `[0, 1]` (for negative
amounts it can leave that interval). -/
theorem C1_weighted_sum_amended :
    (∀ (c : CheckRec) (i : InvoiceRec) (ca ia cd idt cf ir cp ip : String) (s : ℚ),
        c.amount = some ca → i.amount = some ia → c.date = some cd → i.date = some idt →
        c.fromName = some cf → i.resident_name = some ir →
        c.payee = some cp → i.payee = some ip →
        amountScore (normalize_amount ca) (normalize_amount ia) = some s →
        is_match c i =
          s * (2/5) + get_date_score cd idt * (1/5) +
            name_similarity (normalize_name cf) (normalize_name ir) * (3/10) +
            name_similarity (normalize_name cp) (normalize_name ip) * (1/10)) ∧
    ((2 : ℚ)/5 + 1/5 + 3/10 + 1/10 = 1) ∧
    (∀ (c : CheckRec) (i : InvoiceRec),
        0 ≤ normalize_amount (c.amount.getD "") → 0 ≤ normalize_amount (i.amount.getD "") →
        0 ≤ is_match c i ∧ is_match c i ≤ 1) :=
  ⟨fun c i ca ia cd idt cf ir cp ip _ h1 h2 h3 h4 h5 h6 h7 h8 h9 =>
      is_match_eq_some c i ca ia cd idt cf ir cp ip h1 h2 h3 h4 h5 h6 h7 h8 h9,
   by norm_num,
   fun c i hca hia => is_match_bounds c i hca hia⟩

/-- Witness for C1 on a concrete pair with non-negative amounts. -/
theorem C1_witness :
    0 ≤ normalize_amount ((⟨some "$5,490.00", some "10/02/2024", some "Kurt Elliott",
        some "The Mapleton"⟩ : CheckRec).amount.getD "") ∧
    (0 ≤ is_match ⟨some "$5,490.00", some "10/02/2024", some "Kurt Elliott", some "The Mapleton"⟩
        ⟨"INV-1", some "$5,490.00", some "10/01/2024", some "The Mapleton", some "Kurt Elliott"⟩ ∧
      is_match ⟨some "$5,490.00", some "10/02/2024", some "Kurt Elliott", some "The Mapleton"⟩
        ⟨"INV-1", some "$5,490.00", some "10/01/2024", some "The Mapleton", some "Kurt Elliott"⟩ ≤ 1) :=
  ⟨by decide,
   C1_weighted_sum_amended.2.2
     ⟨some "$5,490.00", some "10/02/2024", some "Kurt Elliott", some "The Mapleton"⟩
     ⟨"INV-1", some "$5,490.00", some "10/01/2024", some "The Mapleton", some "Kurt Elliott"⟩
     (by decide) (by decide)⟩

/-! ## C10: totality of `is_match` over arbitrary records -/

/-- C10 counterexample: the check amount `"abc"` fails to parse, yet the
amount component does not score `0.0` - the failed value is coerced to `0.0`
and scores `1.0` against the invoice amount `"$0.00"`, giving the pair the
full confidence `1`. -/
theorem C10_counterexample :
    normalizeAmount? "abc" = none ∧
    is_match ⟨some "abc", some "01/01/2024", some "kurt", some "mapleton"⟩
        ⟨"INV-1", some "$0.00", some "01/01/2024", some "mapleton", some "kurt"⟩ = 1 := by
  constructor
  · decide
  · decide

/-- C10 (amended): `is_match` is total: a missing accessed field zeroes the
whole pair, as does a `ZeroDivisionError` inside the amount component; but
an unparsable amount is coerced to the value `0.0` (not to component score
`0.0`), and the amount component is then scored with that value. -/
theorem C10_total_amended :
    (∀ (c : CheckRec) (i : InvoiceRec),
        c.amount = none ∨ i.amount = none ∨ c.date = none ∨ i.date = none ∨
          c.fromName = none ∨ i.resident_name = none ∨ c.payee = none ∨ i.payee = none →
        is_match c i = 0) ∧
    (∀ (c : CheckRec) (i : InvoiceRec) (ca ia cd idt cf ir cp ip : String),
        c.amount = some ca → i.amount = some ia → c.date = some cd → i.date = some idt →
        c.fromName = some cf → i.resident_name = some ir →
        c.payee = some cp → i.payee = some ip →
        amountScore (normalize_amount ca) (normalize_amount ia) = none →
        is_match c i = 0) ∧
    (∀ s : String, normalizeAmount? s = none → normalize_amount s = 0) :=
  ⟨is_match_missing,
   fun c i ca ia cd idt cf ir cp ip h1 h2 h3 h4 h5 h6 h7 h8 h9 =>
     is_match_eq_none c i ca ia cd idt cf ir cp ip h1 h2 h3 h4 h5 h6 h7 h8 h9,
   fun _ h => normalize_amount_of_none h⟩

/-- Witness for C10: a record with a missing `from` field scores `0`. -/
theorem C10_witness :
    is_match ⟨some "$10.00", some "01/01/2024", none, some "a"⟩
        ⟨"X", some "$10.00", some "01/01/2024", some "a", some "a"⟩ = 0 ∧
    normalize_amount "oops" = 0 :=
  ⟨C10_total_amended.1
     ⟨some "$10.00", some "01/01/2024", none, some "a"⟩
     ⟨"X", some "$10.00", some "01/01/2024", some "a", some "a"⟩
     (Or.inr (Or.inr (Or.inr (Or.inr (Or.inl rfl))))),
   C10_total_amended.2.2 "oops" (by decide)⟩

/-! ## C6: the re-analysis pass (process_payments.py) -/

/-- C6: the code contradicts the claim (and its own comment, line 235,
`Re-analyze check if we haven't already`).  First conjunct: with one match
entry holding two candidate invoices within the $50 tolerance and a
re-analysis that confirms the original amount with HIGH confidence, the
same check is handed to `reanalyze_check` twice in one pass - the
`checks_needing_reanalysis` list is never extended, so nothing records that
a check was already re-analyzed.  Second conjunct: when re-analysis does not
report HIGH confidence, `reanalyze_check` returns the original flat check
dictionary and the caller immediately evaluates
`new_analysis['Amount']['Numerical']` on it, raising an uncaught `KeyError`
instead of keeping the original reading. -/
theorem C6_reanalysis_bug :
    reanalysisPass oracleSameHigh rematchNone [origCheckC1] [entryTwoNear] =
      .ok ⟨[⟨"c1", 100, "UNKNOWN"⟩], [entryTwoNear], ["c1", "c1"]⟩ ∧
    reanalysisPass oracleLowConf rematchNone [origCheckC1] [entryTwoNear] =
      .error "KeyError" := by
  constructor
  · rfl
  · rfl

/-! ## C2: the "list all candidates" matching pass -/

theorem mem_scoredMatchesFor {check : CheckRec} {invoices : List InvoiceRec} {m : Cand} :
    m ∈ scoredMatchesFor check invoices ↔
      ∃ i ∈ invoices, 3/10 < is_match check i ∧ m = ⟨check, i, is_match check i⟩ := by
  unfold scoredMatchesFor
  rw [List.mem_filterMap]
  constructor
  · rintro ⟨i, hi, hf⟩
    by_cases h : 3/10 < is_match check i
    · rw [if_pos h] at hf
      exact ⟨i, hi, h, (Option.some.inj hf).symm⟩
    · rw [if_neg h] at hf
      cases hf
  · rintro ⟨i, hi, h, rfl⟩
    exact ⟨i, hi, by rw [if_pos h]⟩

theorem scoredMatchesFor_eq_nil {check : CheckRec} {invoices : List InvoiceRec} :
    scoredMatchesFor check invoices = [] ↔ ∀ i ∈ invoices, is_match check i ≤ 3/10 := by
  unfold scoredMatchesFor
  rw [List.filterMap_eq_nil_iff]
  constructor
  · intro h i hi
    have hh := h i hi
    by_cases hlt : 3/10 < is_match check i
    · rw [if_pos hlt] at hh
      cases hh
    · exact not_lt.1 hlt
  · intro h i hi
    rw [if_neg (not_lt.2 (h i hi))]

theorem mem_matchLists {checks : List CheckRec} {invoices : List InvoiceRec} {L : List Cand} :
    L ∈ (match_checks_with_invoices checks invoices).1 ↔
      ∃ c ∈ checks, scoredMatchesFor c invoices ≠ [] ∧
        L = sortByConfidenceDesc (scoredMatchesFor c invoices) := by
  unfold match_checks_with_invoices
  dsimp only
  rw [List.mem_filterMap]
  constructor
  · rintro ⟨c, hc, hf⟩
    by_cases h : (scoredMatchesFor c invoices).isEmpty
    · rw [if_pos h] at hf
      cases hf
    · rw [if_neg h] at hf
      exact ⟨c, hc, fun e => h (List.isEmpty_iff.2 e), (Option.some.inj hf).symm⟩
  · rintro ⟨c, hc, hne, rfl⟩
    refine ⟨c, hc, ?_⟩
    rw [if_neg (fun h => hne (List.isEmpty_iff.1 h))]

theorem mem_unmatchedChecks {checks : List CheckRec} {invoices : List InvoiceRec}
    {c : CheckRec} :
    c ∈ (match_checks_with_invoices checks invoices).2.1 ↔
      c ∈ checks ∧ ∀ i ∈ invoices, is_match c i ≤ 3/10 := by
  unfold match_checks_with_invoices
  dsimp only
  rw [List.mem_filter]
  constructor
  · rintro ⟨hc, he⟩
    exact ⟨hc, scoredMatchesFor_eq_nil.1 (List.isEmpty_iff.1 he)⟩
  · rintro ⟨hc, h⟩
    exact ⟨hc, List.isEmpty_iff.2 (scoredMatchesFor_eq_nil.2 h)⟩

theorem mem_matchedNumbers {checks : List CheckRec} {invoices : List InvoiceRec} {x : String} :
    x ∈ ((checks.map (fun check => scoredMatchesFor check invoices)).flatten.map
        (fun m => m.invoice.invoice_number)) ↔
      ∃ c ∈ checks, ∃ i ∈ invoices, 3/10 < is_match c i ∧ i.invoice_number = x := by
  rw [List.mem_map]
  constructor
  · rintro ⟨m, hm, rfl⟩
    rw [List.mem_flatten] at hm
    obtain ⟨l, hl, hml⟩ := hm
    rw [List.mem_map] at hl
    obtain ⟨c, hc, rfl⟩ := hl
    obtain ⟨i, hi, hlt, rfl⟩ := mem_scoredMatchesFor.1 hml
    exact ⟨c, hc, i, hi, hlt, rfl⟩
  · rintro ⟨c, hc, i, hi, hlt, rfl⟩
    refine ⟨⟨c, i, is_match c i⟩, ?_, rfl⟩
    rw [List.mem_flatten]
    refine ⟨scoredMatchesFor c invoices, List.mem_map.2 ⟨c, hc, rfl⟩, ?_⟩
    exact mem_scoredMatchesFor.2 ⟨i, hi, hlt, rfl⟩

theorem mem_unmatchedInvoices {checks : List CheckRec} {invoices : List InvoiceRec}
    (hnd : (invoices.map (fun i => i.invoice_number)).Nodup)
    {i : InvoiceRec} (hi : i ∈ invoices) :
    i ∈ (match_checks_with_invoices checks invoices).2.2 ↔
      ∀ c ∈ checks, is_match c i ≤ 3/10 := by
  unfold match_checks_with_invoices
  dsimp only
  rw [List.mem_filter]
  have hcont : ∀ b : Bool, (!b) = true ↔ b = false := by decide
  constructor
  · rintro ⟨_, hnc⟩ c hc
    rw [hcont] at hnc
    by_contra hlt
    rw [not_le] at hlt
    have hx : i.invoice_number ∈ ((checks.map
        (fun check => scoredMatchesFor check invoices)).flatten.map
          (fun m => m.invoice.invoice_number)) :=
      mem_matchedNumbers.2 ⟨c, hc, i, hi, hlt, rfl⟩
    rw [← List.elem_iff] at hx
    unfold List.contains at hnc
    rw [hx] at hnc
    cases hnc
  · intro h
    refine ⟨hi, ?_⟩
    rw [hcont]
    by_cases hx : (((checks.map (fun check => scoredMatchesFor check invoices)).flatten.map
        (fun m => m.invoice.invoice_number)).contains i.invoice_number) = true
    · exfalso
      rw [List.elem_iff] at hx
      obtain ⟨c, hc, j, hj, hlt, hnum⟩ := mem_matchedNumbers.1 hx
      have hji : j = i :=
        List.inj_on_of_nodup_map hnd hj hi hnum
      rw [hji] at hlt
      exact absurd hlt (not_lt.2 (h c hc))
    · exact Bool.not_eq_true _ ▸ (Bool.of_not_eq_true hx)

/-- C2 (amended): assuming invoice numbers are pairwise distinct within the
batch (the data-model invariant), the "list all candidates" pass keeps only
candidates over the 0.3 floor, sorted by descending confidence, scores every
check against the whole invoice pool (so one invoice may appear for several
checks), and reports unmatched checks and never-claimed invoices separately.
With duplicate invoice numbers an unclaimed invoice can be dropped from the
unmatched report (see the counterexample). -/
theorem C2_list_all_candidates_amended :
    ∀ (checks : List CheckRec) (invoices : List InvoiceRec),
      (invoices.map (fun i => i.invoice_number)).Nodup →
      ListAllCandidatesSpec checks invoices := by
  intro checks invoices hnd
  refine ⟨?_, ?_, fun c => mem_unmatchedChecks, fun i hi => mem_unmatchedInvoices hnd hi⟩
  · intro L hL
    obtain ⟨c, hc, hne, rfl⟩ := mem_matchLists.1 hL
    have hperm : (sortByConfidenceDesc (scoredMatchesFor c invoices)).Perm
        (scoredMatchesFor c invoices) :=
      List.perm_insertionSort candGe (scoredMatchesFor c invoices)
    refine ⟨?_, List.sorted_insertionSort candGe _, ?_⟩
    · intro he
      rw [he] at hperm
      exact hne (hperm.symm.eq_nil)
    · intro m hm
      have hm' : m ∈ scoredMatchesFor c invoices := hperm.mem_iff.1 hm
      obtain ⟨i, hi, hlt, rfl⟩ := mem_scoredMatchesFor.1 hm'
      exact ⟨hlt, rfl, hc, hi⟩
  · intro c hc i hi hlt
    have hmem : (⟨c, i, is_match c i⟩ : Cand) ∈ scoredMatchesFor c invoices :=
      mem_scoredMatchesFor.2 ⟨i, hi, hlt, rfl⟩
    have hne : scoredMatchesFor c invoices ≠ [] := by
      intro he
      rw [he] at hmem
      cases hmem
    have hperm : (sortByConfidenceDesc (scoredMatchesFor c invoices)).Perm
        (scoredMatchesFor c invoices) :=
      List.perm_insertionSort candGe (scoredMatchesFor c invoices)
    refine ⟨sortByConfidenceDesc (scoredMatchesFor c invoices),
      mem_matchLists.2 ⟨c, hc, hne, rfl⟩, ⟨c, i, is_match c i⟩, ?_, rfl, rfl⟩
    exact hperm.mem_iff.2 hmem

/-- C2 counterexample: two invoices share `invoice_number = "1"`; the first
is claimed, the second clears no floor for any check (so it is claimed by no
check), yet `unmatched_invoices` is empty - the never-claimed duplicate is
not reported. -/
theorem C2_counterexample :
    is_match cexCheck cexInvoiceB ≤ 3/10 ∧
    (match_checks_with_invoices [cexCheck] [cexInvoiceA, cexInvoiceB]).2.2 = [] := by
  constructor
  · decide
  · decide

/-- Witness for C2 on a batch with distinct invoice numbers. -/
theorem C2_witness : ListAllCandidatesSpec [cexCheck] [cexInvoiceA] :=
  C2_list_all_candidates_amended [cexCheck] [cexInvoiceA] (by decide)

/-! ## C3: consensus extraction -/

theorem chooseBetter_none (l : List String) (k : String) :
    chooseBetter l k none = some k := rfl

theorem chooseBetter_some (l : List String) (k b : String) :
    chooseBetter l k (some b) =
      if countV l k < countV l b then some b else some k := rfl

theorem chooseBetter_isSome (l : List String) (k : String) (o : Option String) :
    ∃ v, chooseBetter l k o = some v := by
  cases o with
  | none => exact ⟨k, rfl⟩
  | some b =>
    unfold chooseBetter
    by_cases hc : countV l k < countV l b
    · exact ⟨b, if_pos hc⟩
    · exact ⟨k, if_neg hc⟩

theorem chooseMax_eq_none {l keys : List String} :
    chooseMax l keys = none ↔ keys = [] := by
  cases keys with
  | nil => simp [chooseMax]
  | cons k ks =>
    constructor
    · intro h
      exfalso
      unfold chooseMax at h
      obtain ⟨v, hv⟩ := chooseBetter_isSome l k (chooseMax l ks)
      rw [hv] at h
      cases h
    · intro h
      cases h

theorem chooseMax_spec {l : List String} :
    ∀ {keys : List String} {v : String}, chooseMax l keys = some v →
      v ∈ keys ∧ (∀ u ∈ keys, countV l u ≤ countV l v) ∧
        (∀ u ∈ keys, countV l u = countV l v → keys.indexOf v ≤ keys.indexOf u) := by
  intro keys
  induction keys with
  | nil => intro v h; cases h
  | cons k ks ih =>
    intro v h
    unfold chooseMax at h
    rcases hh : chooseMax l ks with _ | b <;> rw [hh] at h
    · rw [chooseBetter_none] at h
      have hks : ks = [] := chooseMax_eq_none.1 hh
      cases h
      subst hks
      refine ⟨List.mem_singleton_self k, ?_, ?_⟩
      · intro u hu
        rcases List.mem_singleton.1 hu with rfl
        exact le_refl _
      · intro u hu _
        rcases List.mem_singleton.1 hu with rfl
        exact le_refl _
    · rw [chooseBetter_some] at h
      obtain ⟨hmem, hmax, htie⟩ := ih hh
      by_cases hc : countV l k < countV l b
      · rw [if_pos hc] at h
        cases h
        refine ⟨List.mem_cons_of_mem _ hmem, ?_, ?_⟩
        · intro u hu
          rcases List.mem_cons.1 hu with rfl | hu'
          · exact hc.le
          · exact hmax u hu'
        · intro u hu hcnt
          by_cases huk : u = k
          · rw [huk] at hcnt
            exact absurd hcnt (ne_of_lt hc)
          · have hu' : u ∈ ks := (List.mem_cons.1 hu).resolve_left huk
            by_cases hbk : v = k
            · rw [hbk, List.indexOf_cons_self]
              exact Nat.zero_le _
            · rw [List.indexOf_cons_ne _ (fun e => hbk e.symm),
                List.indexOf_cons_ne _ (fun e => huk e.symm)]
              exact Nat.succ_le_succ (htie u hu' hcnt)
      · rw [if_neg hc] at h
        cases h
        refine ⟨List.mem_cons_self _ _, ?_, ?_⟩
        · intro u hu
          rcases List.mem_cons.1 hu with rfl | hu'
          · exact le_refl _
          · exact (hmax u hu').trans (not_lt.1 hc)
        · intro u hu _
          rw [List.indexOf_cons_self]
          exact Nat.zero_le _

theorem mostCommon_majorityVote (l : List String) : MajorityVote l (mostCommon l) := by
  rcases h : mostCommon l with _ | v
  · exact chooseMax_eq_none.1 h
  · exact chooseMax_spec h

theorem getC_voteConsensus (results : List ExtractResult) (f : Fld) :
    getC (voteConsensus results) f = voteField results f := by
  cases f <;> rfl

theorem voteField_isSome (results : List ExtractResult) (f : Fld) :
    (voteField results f).isSome = !(fieldValues results f).isEmpty := by
  unfold voteField mostCommon
  rcases h : fieldValues results f with _ | ⟨x, xs⟩
  · rfl
  · unfold chooseMax
    obtain ⟨v, hv⟩ := chooseBetter_isSome (x :: xs) x (chooseMax (x :: xs) xs)
    rw [hv]
    rfl

theorem analyze_consensus_identical (r : ExtractResult) (o3 o4 : Option ExtractResult) :
    analyze_check_with_consensus [some r, some r, o3, o4] = some (toDict r) := by
  simp [analyze_check_with_consensus]

theorem analyze_consensus_differ (r1 r2 : ExtractResult) (o3 o4 : Option ExtractResult)
    (hne : r1 ≠ r2) :
    analyze_check_with_consensus [some r1, some r2, o3, o4] =
      (if coreFields.all
          (fun f => !((fieldValues (r1 :: r2 :: List.filterMap id [o3, o4]) f).isEmpty))
       then some (voteConsensus (r1 :: r2 :: List.filterMap id [o3, o4]))
       else none) := by
  have hfun : (fun f => (getC (voteConsensus (r1 :: r2 :: List.filterMap id [o3, o4])) f).isSome) =
      (fun f => !((fieldValues (r1 :: r2 :: List.filterMap id [o3, o4]) f).isEmpty)) :=
    funext fun f => by rw [getC_voteConsensus, voteField_isSome]
  have h1 : analyze_check_with_consensus [some r1, some r2, o3, o4] =
      (if ([r2].all fun r => r = r1) then some (toDict r1)
       else
         (if coreFields.all
              (fun f => (getC (voteConsensus ([r1, r2] ++ List.filterMap id [o3, o4])) f).isSome)
          then some (voteConsensus ([r1, r2] ++ List.filterMap id [o3, o4]))
          else none)) := rfl
  rw [h1]
  have hcond : ([r2].all fun r => decide (r = r1)) = false := by
    simp [Ne.symm hne]
  rw [if_neg (by rw [hcond]; exact Bool.false_ne_true)]
  simp only [List.cons_append, List.nil_append]
  rw [hfun]

/-- C3: the consensus extractor accepts immediately when the first two
(successful) extraction results are identical - the further attempt outcomes
are not consulted; when they differ it takes two more attempts and, over all
collected results, votes each of the eight fields; the vote of every field
satisfies the majority-vote specification (most frequent non-empty value,
ties broken by first-seen order); a consensus record is returned exactly
when all of check_number, amount, date, payee and from have a voted value,
and `none` otherwise. -/
theorem C3_consensus :
    (∀ (r : ExtractResult) (o3 o4 : Option ExtractResult),
        analyze_check_with_consensus [some r, some r, o3, o4] = some (toDict r)) ∧
    (∀ (r1 r2 : ExtractResult) (o3 o4 : Option ExtractResult), r1 ≠ r2 →
        analyze_check_with_consensus [some r1, some r2, o3, o4] =
          (if coreFields.all
              (fun f => !((fieldValues (r1 :: r2 :: List.filterMap id [o3, o4]) f).isEmpty))
           then some (voteConsensus (r1 :: r2 :: List.filterMap id [o3, o4]))
           else none)) ∧
    (∀ (results : List ExtractResult) (f : Fld),
        MajorityVote (fieldValues results f) (getC (voteConsensus results) f)) :=
  ⟨analyze_consensus_identical,
   analyze_consensus_differ,
   fun results f => by
     rw [getC_voteConsensus]
     exact mostCommon_majorityVote (fieldValues results f)⟩

/-- Witness for C3: identical results accepted at once; divergent results
voted (three of four attempts agree on the amount). -/
theorem C3_witness :
    analyze_check_with_consensus [some extractA, some extractA, none, none] =
      some (toDict extractA) ∧
    analyze_check_with_consensus [some extractA, some extractB, some extractA, some extractA] =
      (if coreFields.all
          (fun f => !((fieldValues
            (extractA :: extractB :: List.filterMap id [some extractA, some extractA])
              f).isEmpty))
       then some (voteConsensus
          (extractA :: extractB :: List.filterMap id [some extractA, some extractA]))
       else none) :=
  ⟨C3_consensus.1 extractA none none,
   C3_consensus.2.1 extractA extractB (some extractA) (some extractA) (by decide)⟩

/-! ## Structural lemmas for `normalize_name` -/

theorem pyToLower_toNat (c : Char) :
    (pyToLower c).toNat = if 65 ≤ c.toNat ∧ c.toNat ≤ 90 then c.toNat + 32 else c.toNat := by
  unfold pyToLower
  by_cases h : 65 ≤ c.toNat ∧ c.toNat ≤ 90
  · rw [dif_pos h, if_pos h]
    rfl
  · rw [dif_neg h, if_neg h]

theorem pyToLower_fix {c : Char} (h : ¬ (65 ≤ c.toNat ∧ c.toNat ≤ 90)) : pyToLower c = c := by
  unfold pyToLower
  rw [dif_neg h]

theorem pyToLower_idem (c : Char) : pyToLower (pyToLower c) = pyToLower c := by
  have ht := pyToLower_toNat c
  apply pyToLower_fix
  rw [ht]
  by_cases h : 65 ≤ c.toNat ∧ c.toNat ≤ 90
  · rw [if_pos h]
    omega
  · rw [if_neg h]
    exact h

theorem pyIsDigit_pyToLower (c : Char) : pyIsDigit (pyToLower c) = pyIsDigit c := by
  have ht := pyToLower_toNat c
  unfold pyIsDigit
  rw [Bool.eq_iff_iff]
  simp only [Bool.and_eq_true, decide_eq_true_eq]
  rw [ht]
  by_cases h : 65 ≤ c.toNat ∧ c.toNat ≤ 90
  · rw [if_pos h]
    omega
  · rw [if_neg h]

theorem pyIsSpace_pyToLower (c : Char) : pyIsSpace (pyToLower c) = pyIsSpace c := by
  have ht := pyToLower_toNat c
  unfold pyIsSpace
  rw [Bool.eq_iff_iff]
  simp only [Bool.or_eq_true, decide_eq_true_eq]
  rw [ht]
  by_cases h : 65 ≤ c.toNat ∧ c.toNat ≤ 90
  · rw [if_pos h]
    omega
  · rw [if_neg h]

theorem pyIsSpace_space : pyIsSpace ' ' = true := rfl

theorem pyIsWord_space : pyIsWord ' ' = false := rfl

theorem pyToLower_space : pyToLower ' ' = ' ' := rfl

theorem lowerL_fix {t : List Char} (h : ∀ c ∈ t, pyToLower c = c) : lowerL t = t :=
  (List.map_congr_left h).trans (List.map_id t)

theorem lowerL_idem (t : List Char) : lowerL (lowerL t) = lowerL t := by
  unfold lowerL
  rw [List.map_map]
  exact List.map_congr_left (fun c _ => pyToLower_idem c)

theorem takeWhile_append_stop {p : Char → Bool} :
    ∀ (xs : List Char) (y : Char) (rest : List Char), (∀ x ∈ xs, p x = true) → p y = false →
      (xs ++ y :: rest).takeWhile p = xs
  | [], y, rest, _, hy => by
    simp [List.takeWhile_cons, hy]
  | x :: xs, y, rest, hxs, hy => by
    rw [List.cons_append, List.takeWhile_cons_of_pos (hxs x (List.mem_cons_self _ _)),
      takeWhile_append_stop xs y rest (fun a ha => hxs a (List.mem_cons_of_mem _ ha)) hy]

theorem wordsAux_cons (c : Char) (cs acc : List Char) :
    wordsAux (c :: cs) acc =
      if pyIsSpace c then
        (if acc.isEmpty then wordsAux cs [] else acc.reverse :: wordsAux cs [])
      else wordsAux cs (c :: acc) := rfl

theorem wordsAux_append_word :
    ∀ (w s acc : List Char), (∀ c ∈ w, pyIsSpace c = false) →
      wordsAux (w ++ s) acc = wordsAux s (w.reverse ++ acc)
  | [], s, acc, _ => by simp
  | c :: w', s, acc, hw => by
    have hc : pyIsSpace c = false := hw c (List.mem_cons_self _ _)
    have hw' : ∀ x ∈ w', pyIsSpace x = false := fun x hx => hw x (List.mem_cons_of_mem _ hx)
    show wordsAux (c :: (w' ++ s)) acc = _
    rw [wordsAux_cons, hc, if_neg Bool.false_ne_true,
      wordsAux_append_word w' s (c :: acc) hw', List.reverse_cons, List.append_assoc,
      List.singleton_append]

theorem wordsAux_space (s acc : List Char) :
    wordsAux (' ' :: s) acc =
      if acc.isEmpty then wordsAux s [] else acc.reverse :: wordsAux s [] := by
  rw [wordsAux_cons, pyIsSpace_space, if_pos rfl]

theorem pyWords_joinWords :
    ∀ ws : List (List Char), (∀ w ∈ ws, w ≠ [] ∧ ∀ c ∈ w, pyIsSpace c = false) →
      pyWords (joinWords ws) = ws
  | [], _ => rfl
  | [w], h => by
    obtain ⟨hne, hns⟩ := h w (List.mem_singleton_self _)
    show pyWords (joinWords [w]) = [w]
    have hjw : joinWords [w] = w := rfl
    rw [hjw]
    unfold pyWords
    rw [show w = w ++ ([] : List Char) from (List.append_nil w).symm,
      wordsAux_append_word w [] [] hns]
    unfold wordsAux
    rw [List.append_nil, List.append_nil]
    rw [if_neg (by
      intro he
      exact hne (by
        have := List.isEmpty_iff.1 he
        have h2 := congrArg List.reverse this
        rw [List.reverse_reverse] at h2
        exact h2))]
    rw [List.reverse_reverse]
  | w :: w2 :: ws, h => by
    obtain ⟨hne, hns⟩ := h w (List.mem_cons_self _ _)
    have h' : ∀ x ∈ w2 :: ws, x ≠ [] ∧ ∀ c ∈ x, pyIsSpace c = false :=
      fun x hx => h x (List.mem_cons_of_mem _ hx)
    show pyWords (w ++ ' ' :: joinWords (w2 :: ws)) = w :: w2 :: ws
    unfold pyWords
    rw [wordsAux_append_word w _ [] hns, List.append_nil, wordsAux_space]
    rw [if_neg (by
      intro he
      exact hne (by
        have := List.isEmpty_iff.1 he
        have h2 := congrArg List.reverse this
        rw [List.reverse_reverse] at h2
        exact h2))]
    rw [List.reverse_reverse]
    exact congrArg (w :: ·) (pyWords_joinWords (w2 :: ws) h')

theorem mem_joinWords :
    ∀ (ws : List (List Char)) (c : Char), c ∈ joinWords ws →
      (∃ w ∈ ws, c ∈ w) ∨ c = ' '
  | [], c, h => by cases h
  | [w], c, h => Or.inl ⟨w, List.mem_singleton_self _, h⟩
  | w :: w2 :: ws, c, h => by
    rw [show joinWords (w :: w2 :: ws) = w ++ ' ' :: joinWords (w2 :: ws) from rfl] at h
    rcases List.mem_append.1 h with h1 | h2
    · exact Or.inl ⟨w, List.mem_cons_self _ _, h1⟩
    · rcases List.mem_cons.1 h2 with rfl | h3
      · exact Or.inr rfl
      · rcases mem_joinWords (w2 :: ws) c h3 with ⟨w', hw', hc⟩ | he
        · exact Or.inl ⟨w', List.mem_cons_of_mem _ hw', hc⟩
        · exact Or.inr he

theorem wordsAux_words_spec :
    ∀ (s acc : List Char), (∀ c ∈ acc, pyIsSpace c = false) →
      ∀ w ∈ wordsAux s acc, w ≠ [] ∧ ∀ c ∈ w, pyIsSpace c = false
  | [], acc, hacc => by
    intro w hw
    unfold wordsAux at hw
    by_cases he : acc.isEmpty
    · rw [if_pos he] at hw
      cases hw
    · rw [if_neg he] at hw
      rcases List.mem_singleton.1 hw with rfl
      refine ⟨fun h0 => he ?_, fun c hc => hacc c (List.mem_reverse.1 hc)⟩
      have h2 := congrArg List.reverse h0
      rw [List.reverse_reverse] at h2
      rw [h2]
      rfl
  | c :: cs, acc, hacc => by
    intro w hw
    unfold wordsAux at hw
    cases hsp : pyIsSpace c with
    | false =>
      rw [hsp, if_neg Bool.false_ne_true] at hw
      have hacc' : ∀ x ∈ c :: acc, pyIsSpace x = false := by
        intro x hx
        rcases List.mem_cons.1 hx with rfl | hx'
        · exact hsp
        · exact hacc x hx'
      exact wordsAux_words_spec cs (c :: acc) hacc' w hw
    | true =>
      rw [hsp, if_pos rfl] at hw
      by_cases he : acc.isEmpty
      · rw [if_pos he] at hw
        exact wordsAux_words_spec cs [] (by intro x hx; cases hx) w hw
      · rw [if_neg he] at hw
        rcases List.mem_cons.1 hw with rfl | hw'
        · refine ⟨fun h0 => he ?_, fun x hx => hacc x (List.mem_reverse.1 hx)⟩
          have h2 := congrArg List.reverse h0
          rw [List.reverse_reverse] at h2
          rw [h2]
          rfl
        · exact wordsAux_words_spec cs [] (by intro x hx; cases hx) w hw'

theorem wordsAux_chars :
    ∀ (s acc : List Char), ∀ w ∈ wordsAux s acc, ∀ c ∈ w, c ∈ s ∨ c ∈ acc
  | [], acc => by
    intro w hw c hc
    unfold wordsAux at hw
    by_cases he : acc.isEmpty
    · rw [if_pos he] at hw
      cases hw
    · rw [if_neg he] at hw
      rcases List.mem_singleton.1 hw with rfl
      exact Or.inr (List.mem_reverse.1 hc)
  | x :: cs, acc => by
    intro w hw c hc
    unfold wordsAux at hw
    cases hsp : pyIsSpace x with
    | false =>
      rw [hsp, if_neg Bool.false_ne_true] at hw
      rcases wordsAux_chars cs (x :: acc) w hw c hc with h1 | h2
      · exact Or.inl (List.mem_cons_of_mem _ h1)
      · rcases List.mem_cons.1 h2 with rfl | h3
        · exact Or.inl (List.mem_cons_self _ _)
        · exact Or.inr h3
    | true =>
      rw [hsp, if_pos rfl] at hw
      by_cases he : acc.isEmpty
      · rw [if_pos he] at hw
        rcases wordsAux_chars cs [] w hw c hc with h1 | h2
        · exact Or.inl (List.mem_cons_of_mem _ h1)
        · cases h2
      · rw [if_neg he] at hw
        rcases List.mem_cons.1 hw with rfl | hw'
        · exact Or.inr (List.mem_reverse.1 hc)
        · rcases wordsAux_chars cs [] w hw' c hc with h1 | h2
          · exact Or.inl (List.mem_cons_of_mem _ h1)
          · cases h2

theorem sortWords_perm (ws : List (List Char)) : (sortWords ws).Perm ws :=
  List.perm_insertionSort _ ws

theorem sortWords_sorted (ws : List (List Char)) : List.Sorted (· ≤ ·) (sortWords ws) :=
  List.sorted_insertionSort _ ws

theorem sortWords_of_sorted {ws : List (List Char)} (h : List.Sorted (· ≤ ·) ws) :
    sortWords ws = ws :=
  List.Sorted.insertionSort_eq h

theorem normalizeNameL_nil {s : List Char} (hs : s.isEmpty = true) :
    normalizeNameL s = [] := by
  unfold normalizeNameL
  rw [if_pos hs]

theorem normalizeNameL_eq (s : List Char) (hs : ¬ s.isEmpty = true) :
    normalizeNameL s =
      joinWords (sortWords (pyWords (stripPunct (lowerL (stripTrailingNumber s))))) := by
  unfold normalizeNameL
  rw [if_neg hs]

theorem pyWords_normalizeNameL (s : List Char) (hs : ¬ s.isEmpty = true) :
    pyWords (normalizeNameL s) =
      sortWords (pyWords (stripPunct (lowerL (stripTrailingNumber s)))) := by
  rw [normalizeNameL_eq s hs]
  apply pyWords_joinWords
  intro w hw
  exact wordsAux_words_spec _ [] (by intro x hx; cases hx) w ((sortWords_perm _).mem_iff.1 hw)

theorem normalizeNameL_words_sorted (s : List Char) :
    List.Sorted (· ≤ ·) (pyWords (normalizeNameL s)) := by
  by_cases hs : s.isEmpty = true
  · rw [normalizeNameL_nil hs]
    exact List.sorted_nil
  · rw [pyWords_normalizeNameL s hs]
    exact sortWords_sorted _

theorem joinWords_pyWords_normalizeNameL (s : List Char) :
    joinWords (pyWords (normalizeNameL s)) = normalizeNameL s := by
  by_cases hs : s.isEmpty = true
  · rw [normalizeNameL_nil hs]
    rfl
  · rw [pyWords_normalizeNameL s hs, normalizeNameL_eq s hs]

theorem normalizeNameL_chars (s : List Char) :
    ∀ c ∈ normalizeNameL s, (pyIsWord c = true ∧ pyToLower c = c) ∨ c = ' ' := by
  intro c hc
  by_cases hs : s.isEmpty = true
  · rw [normalizeNameL_nil hs] at hc
    cases hc
  · rw [normalizeNameL_eq s hs] at hc
    rcases mem_joinWords _ c hc with ⟨w, hw, hcw⟩ | he
    · have hw' : w ∈ pyWords (stripPunct (lowerL (stripTrailingNumber s))) :=
        (sortWords_perm _).mem_iff.1 hw
      have hcs : c ∈ stripPunct (lowerL (stripTrailingNumber s)) := by
        rcases wordsAux_chars _ [] w hw' c hcw with h1 | h2
        · exact h1
        · cases h2
      have hcns : pyIsSpace c = false :=
        (wordsAux_words_spec _ [] (by intro x hx; cases hx) w hw').2 c hcw
      obtain ⟨hmem, hpred⟩ := List.mem_filter.1 hcs
      have hword : pyIsWord c = true := by
        rcases (Bool.or_eq_true _ _) ▸ hpred with h | h
        · exact h
        · rw [hcns] at h
          cases h
      obtain ⟨d, _, rfl⟩ := List.mem_map.1 hmem
      exact Or.inl ⟨hword, pyToLower_idem d⟩
    · exact Or.inr he

theorem normalizeNameL_idem (s : List Char)
    (h : stripTrailingNumber (normalizeNameL s) = normalizeNameL s) :
    normalizeNameL (normalizeNameL s) = normalizeNameL s := by
  by_cases hy : (normalizeNameL s).isEmpty = true
  · rw [List.isEmpty_iff.1 hy]
    rfl
  · have hchars := normalizeNameL_chars s
    have hlow : lowerL (normalizeNameL s) = normalizeNameL s := by
      apply lowerL_fix
      intro c hc
      rcases hchars c hc with ⟨_, hfix⟩ | rfl
      · exact hfix
      · exact pyToLower_space
    have hpunct : stripPunct (normalizeNameL s) = normalizeNameL s := by
      apply List.filter_eq_self.2
      intro c hc
      rcases hchars c hc with ⟨hword, _⟩ | rfl
      · rw [hword]
        rfl
      · rfl
    rw [normalizeNameL_eq _ hy, h, hlow, hpunct,
      sortWords_of_sorted (normalizeNameL_words_sorted s)]
    exact joinWords_pyWords_normalizeNameL s

/-! ## C9: idempotence of `normalize_name` -/

/-- C9 counterexample: `normalize_name` is not idempotent.  On `"1 2 9"`
the first pass strips the trailing `9` and returns `"1 2"`; applying the
function again strips the now-trailing `2` and returns `"1"`. -/
theorem C9_counterexample :
    normalize_name "1 2 9" = "1 2" ∧
      normalize_name (normalize_name "1 2 9") = "1" := by
  constructor
  · decide
  · decide

/-- C9 (amended): `normalize_name` is idempotent on every input whose
normalized form is not changed by the trailing-number strip (in particular
whenever the normalized form does not end in a whitespace-separated
all-digit word); in general a digit word sorted to the end can be stripped
again by a second pass. -/
theorem C9_idempotent_amended (s : String)
    (h : stripTrailingNumber (normalize_name s).data = (normalize_name s).data) :
    normalize_name (normalize_name s) = normalize_name s := by
  unfold normalize_name at h ⊢
  exact congrArg String.mk (normalizeNameL_idem s.data h)

/-- Witness for C9 on an ordinary name. -/
theorem C9_witness :
    normalize_name (normalize_name "Kurt A Elliott") = normalize_name "Kurt A Elliott" :=
  C9_idempotent_amended "Kurt A Elliott" (by decide)

/-! ## C8: what `normalize_name` does -/

theorem stripTrailingNumber_append_digits (s' : List Char) (c : Char) (d : List Char)
    (hcs : pyIsSpace c = false) (_hcd : pyIsDigit c = false)
    (hd : d ≠ []) (hdd : ∀ x ∈ d, pyIsDigit x = true) :
    stripTrailingNumber (s' ++ c :: ' ' :: d) = s' ++ [c] := by
  have hrev : (s' ++ c :: ' ' :: d).reverse = d.reverse ++ ' ' :: c :: s'.reverse := by
    simp [List.reverse_append, List.reverse_cons, List.append_assoc]
  have htake : (d.reverse ++ ' ' :: c :: s'.reverse).takeWhile pyIsDigit = d.reverse :=
    takeWhile_append_stop d.reverse ' ' _ (fun x hx => hdd x (List.mem_reverse.1 hx)) rfl
  have hdrop : (d.reverse ++ ' ' :: c :: s'.reverse).drop d.reverse.length =
      ' ' :: c :: s'.reverse :=
    List.drop_left _ _
  have hsp : (' ' :: c :: s'.reverse).takeWhile pyIsSpace = [' '] := by
    rw [List.takeWhile_cons_of_pos (by rfl),
      List.takeWhile_cons_of_neg (by rw [hcs]; exact Bool.false_ne_true)]
  have hdne : d.reverse.isEmpty = false := by
    cases hd' : d.reverse with
    | nil => exact absurd (List.reverse_eq_nil_iff.1 hd') hd
    | cons a as => rfl
  simp only [stripTrailingNumber]
  rw [hrev, htake, hdrop, hsp, hdne]
  rw [if_neg (by decide)]
  simp

theorem stripTrailingNumber_no_digit_end (s' : List Char) (c : Char)
    (hcd : pyIsDigit c = false) :
    stripTrailingNumber (s' ++ [c]) = s' ++ [c] := by
  have hrev : (s' ++ [c]).reverse = c :: s'.reverse := by simp
  have htake : (c :: s'.reverse).takeWhile pyIsDigit = [] :=
    List.takeWhile_cons_of_neg (by rw [hcd]; exact Bool.false_ne_true)
  simp only [stripTrailingNumber]
  rw [hrev, htake]
  simp

theorem normalizeNameL_trailing (s' : List Char) (c : Char) (d : List Char)
    (hcs : pyIsSpace c = false) (hcd : pyIsDigit c = false) (hd : d ≠ [])
    (hdd : ∀ x ∈ d, pyIsDigit x = true) :
    normalizeNameL (s' ++ c :: ' ' :: d) = normalizeNameL (s' ++ [c]) := by
  have h1 : ¬ ((s' ++ c :: ' ' :: d).isEmpty = true) := by
    intro h
    rcases List.append_eq_nil.1 (List.isEmpty_iff.1 h) with ⟨_, h2⟩
    cases h2
  have h2 : ¬ ((s' ++ [c]).isEmpty = true) := by
    intro h
    rcases List.append_eq_nil.1 (List.isEmpty_iff.1 h) with ⟨_, h2⟩
    cases h2
  rw [normalizeNameL_eq _ h1, normalizeNameL_eq _ h2,
    stripTrailingNumber_append_digits s' c d hcs hcd hd hdd,
    stripTrailingNumber_no_digit_end s' c hcd]

theorem lowerL_reverse (t : List Char) : (lowerL t).reverse = lowerL t.reverse :=
  (List.map_reverse _ _).symm

theorem lowerL_takeWhile_digit (t : List Char) :
    (lowerL t).takeWhile pyIsDigit = lowerL (t.takeWhile pyIsDigit) := by
  unfold lowerL
  rw [List.takeWhile_map,
    show (pyIsDigit ∘ pyToLower) = pyIsDigit from funext pyIsDigit_pyToLower]

theorem lowerL_takeWhile_space (t : List Char) :
    (lowerL t).takeWhile pyIsSpace = lowerL (t.takeWhile pyIsSpace) := by
  unfold lowerL
  rw [List.takeWhile_map,
    show (pyIsSpace ∘ pyToLower) = pyIsSpace from funext pyIsSpace_pyToLower]

theorem lowerL_drop (t : List Char) (n : ℕ) : (lowerL t).drop n = lowerL (t.drop n) :=
  (List.map_drop pyToLower t n).symm

theorem lowerL_length (t : List Char) : (lowerL t).length = t.length :=
  List.length_map _ _

theorem lowerL_isEmpty (t : List Char) : (lowerL t).isEmpty = t.isEmpty := by
  cases t <;> rfl

theorem stripTrailingNumber_lowerL (s : List Char) :
    stripTrailingNumber (lowerL s) = lowerL (stripTrailingNumber s) := by
  simp only [stripTrailingNumber, lowerL_reverse, lowerL_takeWhile_digit, lowerL_length,
    lowerL_drop, lowerL_takeWhile_space, lowerL_isEmpty, apply_ite lowerL]

theorem normalize_name_lower (s : String) : normalize_name (lowerStr s) = normalize_name s := by
  unfold normalize_name lowerStr
  apply congrArg String.mk
  show normalizeNameL (lowerL s.data) = normalizeNameL s.data
  unfold normalizeNameL
  rw [lowerL_isEmpty]
  by_cases ht : s.data.isEmpty = true
  · rw [if_pos ht, if_pos ht]
  · rw [if_neg ht, if_neg ht, stripTrailingNumber_lowerL, lowerL_idem]

/-- C8 counterexample: the honorific prefix `Mr.` is not stripped - it
survives (lowercased, with the period removed) as the word `mr`. -/
theorem C8_counterexample :
    normalize_name "Mr. Smith" = "mr smith" ∧ normalize_name "Mr. Smith" ≠ "smith" := by
  constructor
  · decide
  · decide

/-- C8 (amended): `normalize_name` strips one trailing whitespace-separated
all-digit word, is insensitive to the case of its input, lowercases and
keeps only word characters and spaces, sorts the remaining words, and
collapses whitespace (its output is the single-space join of its own
words); honorific prefixes are not stripped (see the counterexample). -/
theorem C8_normalize_name_amended :
    (∀ (s' : List Char) (c : Char) (d : List Char),
        pyIsSpace c = false → pyIsDigit c = false → d ≠ [] →
        (∀ x ∈ d, pyIsDigit x = true) →
        normalizeNameL (s' ++ c :: ' ' :: d) = normalizeNameL (s' ++ [c])) ∧
    (∀ s : String, normalize_name (lowerStr s) = normalize_name s) ∧
    (∀ s : String, ∀ c ∈ (normalize_name s).data,
        (pyIsWord c = true ∧ pyToLower c = c) ∨ c = ' ') ∧
    (∀ s : String, List.Sorted (· ≤ ·) (pyWords (normalize_name s).data)) ∧
    (∀ s : String, joinWords (pyWords (normalize_name s).data) = (normalize_name s).data) :=
  ⟨normalizeNameL_trailing,
   normalize_name_lower,
   fun s => normalizeNameL_chars s.data,
   fun s => normalizeNameL_words_sorted s.data,
   fun s => joinWords_pyWords_normalizeNameL s.data⟩

/-- Witness for C8: the trailing unit number `413` is stripped and the
case-insensitivity holds on a concrete name. -/
theorem C8_witness :
    normalizeNameL ("Kurt Elliott".data ++ 't' :: ' ' :: "413".data) =
      normalizeNameL ("Kurt Elliott".data ++ ['t']) ∧
    normalize_name (lowerStr "Kurt Elliott") = normalize_name "Kurt Elliott" :=
  ⟨C8_normalize_name_amended.1 "Kurt Elliott".data 't' "413".data
      (by decide) (by decide) (by decide) (by decide),
   C8_normalize_name_amended.2.1 "Kurt Elliott"⟩

end KnackBillMatch
